import Mathlib

/-!
Shallow embedding of the `vecto` corpus-iteration pipeline
(`vecto/corpus/iterators.py` and `vecto/embeddings/utils/word.py`).

Strings are modelled as `List Char`, Python lists as Lean `List`s, and each
generator stage as the pure function from its upstream's sample list to the
list of samples it yields.  Python's slice semantics (negative indices
counting from the end, clamping) are embedded exactly in `pySlice`.
-/

namespace Vecto

/-! ## Python primitives -/

/-- The whitespace characters recognised by Python's `str.strip()`. -/
def pyIsSpace (c : Char) : Bool :=
  c = ' ' || c = '\t' || c = '\n' || c = '\x0d' || c = '\x0b' || c = '\x0c'

/-- Python's `str.strip()`: remove leading and trailing whitespace. -/
def pyStrip (s : List Char) : List Char :=
  ((s.dropWhile pyIsSpace).reverse.dropWhile pyIsSpace).reverse

/-- Clamp one endpoint of a Python slice `l[a:b]` to an actual index:
a negative index counts from the end of the list and is then clamped to 0;
a non-negative index is clamped to the length. -/
def pyClampIndex (n : Nat) (x : Int) : Nat :=
  if x < 0 then (if x + n < 0 then 0 else (x + n).toNat) else min x.toNat n

/-- Python's slice `l[a:b]` (step 1) on a list. -/
def pySlice (l : List α) (a b : Int) : List α :=
  let lo := pyClampIndex l.length a
  let hi := pyClampIndex l.length b
  (l.drop lo).take (hi - lo)

/-! ## `FileLineIterator._generate_samples`
Each file is a list of raw lines; every line is stripped and empty results
are skipped (`if line:`). -/

/-- The samples `FileLineIterator` yields for one file's raw lines. -/
def fileSamples (lines : List (List Char)) : List (List Char) :=
  (lines.map pyStrip).filter (fun l => !l.isEmpty)

/-- `FileLineIterator._generate_samples`: iterate over the upstream files,
yield each stripped non-empty line. -/
def fileLineSamples (files : List (List (List Char))) : List (List Char) :=
  files.flatMap fileSamples

/-! ## `TokenizedSequenceIterator._generate_samples` -/

/-- `TokenizedSequenceIterator._generate_samples`: for each upstream line,
yield each tokenized sentence of `tokenizer(line.strip())`. -/
def tokenizedSequenceSamples (tokenizer : List Char → List (List (List Char)))
    (lines : List (List Char)) : List (List (List Char)) :=
  lines.flatMap (fun line => tokenizer (pyStrip line))

/-! ## `TokenIterator._generate_samples` -/

/-- `TokenIterator._generate_samples`: yield every token of every upstream
tokenized sequence, in order. -/
def tokenSamples (seqs : List (List α)) : List α :=
  seqs.flatMap (fun tokenized => tokenized)

/-! ## `iter_sliding_window` and `SlidingWindowIterator` -/

/-- One training sample: `dict(current=center, context=ctx)`. -/
structure Sample (α : Type) where
  current : α
  context : List α
deriving DecidableEq, Repr

/-- `iter_sliding_window(seq, left_ctx_size, right_ctx_size)`: for each
`i, current` in `enumerate(seq)` yield `(i, current, ctx)` where `ctx` is
`seq[i - left_ctx_size : i] + seq[i + 1 : i + right_ctx_size + 1]`
under Python slice semantics. -/
def iter_sliding_window (seq : List α) (left_ctx_size right_ctx_size : Nat) :
    List (Nat × α × List α) :=
  seq.enum.map (fun p =>
    (p.1, p.2,
      pySlice seq ((p.1 : Int) - left_ctx_size) p.1 ++
        pySlice seq ((p.1 : Int) + 1) ((p.1 : Int) + right_ctx_size + 1)))

/-- The samples `SlidingWindowIterator._generate_samples` yields for one
upstream token sequence. -/
def slidingWindowSamples (left_ctx_size right_ctx_size : Nat) (seq : List α) :
    List (Sample α) :=
  (iter_sliding_window seq left_ctx_size right_ctx_size).map
    (fun t => ⟨t.2.1, t.2.2⟩)

/-- `SlidingWindowIterator._generate_samples`: window every upstream
sequence independently, in order. -/
def slidingWindowGen (upstream : List (List α)) (left_ctx_size right_ctx_size : Nat) :
    List (Sample α) :=
  upstream.flatMap (slidingWindowSamples left_ctx_size right_ctx_size)

/-- The context the spec's formula prescribes at index `i`:
`S[max(0, i-L) : i]` concatenated with `S[i+1 : min(n, i+R+1)]`
(stated from the spec, to compare with `iter_sliding_window`). -/
def specContext (S : List α) (L R i : Nat) : List α :=
  (S.take i).drop (i - L) ++ (S.drop (i + 1)).take R

/-! ## `SlidingWindowIterator` as an imperative iterator

`__init__` stores `self.__gen__ = self._generate_samples()`; `__iter__`
returns `self`; `__next__` pulls from that one generator, which keeps
raising `StopIteration` once exhausted.  The instance state is the list of
samples the stored generator has yet to produce. -/

/-- The mutable state of one `SlidingWindowIterator` instance: the samples
its stored generator `__gen__` has not yet produced. -/
structure SlidingWindowIterator (α : Type) where
  gen : List (Sample α)
deriving DecidableEq, Repr

namespace SlidingWindowIterator

/-- Construction: `self.__gen__ = self._generate_samples()`. -/
def new (upstream : List (List α)) (left_ctx_size right_ctx_size : Nat) :
    SlidingWindowIterator α :=
  ⟨slidingWindowGen upstream left_ctx_size right_ctx_size⟩

/-- `__iter__(self)`: `return self`. -/
def iter (it : SlidingWindowIterator α) : SlidingWindowIterator α := it

/-- `__next__(self)`: `return next(self.__gen__)` — `none` models the
`StopIteration` signal of an exhausted generator. -/
def next (it : SlidingWindowIterator α) :
    Option (Sample α) × SlidingWindowIterator α :=
  match it.gen with
  | [] => (none, it)
  | x :: xs => (some x, ⟨xs⟩)

/-- Pull from the instance until it signals exhaustion, collecting the
samples produced, and return the instance in its final state. -/
def drain : SlidingWindowIterator α → List (Sample α) × SlidingWindowIterator α
  | ⟨[]⟩ => ([], ⟨[]⟩)
  | ⟨x :: xs⟩ => ((x :: (drain ⟨xs⟩).1), (drain ⟨xs⟩).2)

end SlidingWindowIterator

/-! ## The construction-time precondition check

`SlidingWindowIterator.__init__` begins with
`assert isinstance(next(iter(base_corpus)), collections.abc.Sequence)`.
An upstream element is either an indexable ordered sequence or a bare
scalar. -/

/-- An element produced by the upstream: an indexable ordered sequence of
tokens, or a bare scalar. -/
inductive PyElem (α : Type) where
  | scalar (a : α)
  | seq (l : List α)
deriving DecidableEq, Repr

/-- `isinstance(e, collections.abc.Sequence)` on an upstream element. -/
def isSequence : PyElem α → Bool
  | .scalar _ => false
  | .seq _ => true

/-- How `SlidingWindowIterator.__init__` can fail: the upstream's
`StopIteration` escaping `next(iter(base_corpus))` on an empty upstream, or
the `assert` failing on a non-sequence first element. -/
inductive InitError where
  | stopIteration
  | assertionError
deriving DecidableEq, Repr

/-- The construction-time check of `SlidingWindowIterator.__init__`:
`next(iter(base_corpus))` raises `StopIteration` on an empty upstream;
otherwise the `assert` fails unless the first element is a `Sequence`. -/
def slidingWindowInit : List (PyElem α) → Except InitError Unit
  | [] => .error .stopIteration
  | e :: _ => if isSequence e then .ok () else .error .assertionError

/-- Modelled from the spec: `BaseIterator` (`vecto/corpus/base.py`, absent
from `src/`) makes every iterator instance single-pass ("a single instance
is single-pass (exhausts once iterated fully)", spec §3).  Hence
`next(iter(base_corpus))` in `SlidingWindowIterator.__init__` consumes the
upstream's first token sequence for good, and `_generate_samples` later
sees only the remaining ones; on an empty upstream the `next` call raises
the upstream's `StopIteration` before the `assert` runs. -/
def slidingWindowInitSinglePass (upstream : List (List α))
    (left_ctx_size right_ctx_size : Nat) : Except InitError (List (Sample α)) :=
  match upstream with
  | [] => .error .stopIteration
  | _first :: rest => .ok (slidingWindowGen rest left_ctx_size right_ctx_size)

/-! ## `DirIterator._generate_samples`

`os.walk(self.dirname, followlinks=True)` yields, top-down, one
`(root, dirs, files)` triple per directory; `fnmatch.filter(files, "*")`
keeps every name; the yielded path is `os.path.join(root, good_fname)`,
i.e. `root + "/" + good_fname`.  The directory tree is modelled as a finite
tree of named entries (the resolved view the walk traverses). -/

mutual
/-- A directory: its regular files' names and its named subdirectories. -/
inductive FSTree : Type where
  | mk (files : List (List Char)) (subdirs : SubdirEntries) : FSTree

/-- The named subdirectory entries of a directory. -/
inductive SubdirEntries : Type where
  | nil : SubdirEntries
  | cons (name : List Char) (tree : FSTree) (rest : SubdirEntries) : SubdirEntries
end

/-- `os.path.join(root, name)` for a name without separators. -/
def pathJoin (root name : List Char) : List Char := root ++ '/' :: name

mutual
/-- `DirIterator._generate_samples` on the tree rooted at path `root`:
`os.walk` yields the root's triple first (its files, joined onto `root`),
then walks each subdirectory. -/
def walkTree (root : List Char) : FSTree → List (List Char)
  | .mk files subdirs =>
      files.map (pathJoin root) ++ walkSubs root subdirs

/-- The paths `DirIterator._generate_samples` yields below the given
subdirectory entries of the directory at path `root`. -/
def walkSubs (root : List Char) : SubdirEntries → List (List Char)
  | .nil => []
  | .cons name tree rest =>
      walkTree (pathJoin root name) tree ++ walkSubs root rest
end

mutual
/-- Number of regular files in a directory tree. -/
def countFiles : FSTree → Nat
  | .mk files subdirs => files.length + countFilesSubs subdirs

/-- Number of regular files below a list of subdirectory entries. -/
def countFilesSubs : SubdirEntries → Nat
  | .nil => 0
  | .cons _ tree rest => countFiles tree + countFilesSubs rest
end

/-- The names of the subdirectory entries. -/
def subNames : SubdirEntries → List (List Char)
  | .nil => []
  | .cons name _ rest => name :: subNames rest

/-- A legal entry name: non-separator characters only. -/
def nameOk (n : List Char) : Bool := n.all (fun c => c ≠ '/')

mutual
/-- Filesystem well-formedness: within each directory, file names and
subdirectory names are separator-free and pairwise distinct. -/
def wfTree : FSTree → Bool
  | .mk files subdirs =>
      files.all nameOk && decide files.Nodup && wfSubs subdirs

/-- Well-formedness of subdirectory entries: separator-free pairwise
distinct names, each subtree well-formed. -/
def wfSubs : SubdirEntries → Bool
  | .nil => true
  | .cons name tree rest =>
      nameOk name && decide (name ∉ subNames rest) && wfTree tree && wfSubs rest
end

/-- A POSIX path is absolute when it starts with the separator. -/
def isAbsolute (p : List Char) : Bool := p.head? = some '/'

/-! ## `DirWindowIterator.next_single_sample` (`vecto/embeddings/utils/word.py`)

The constructor stores `self.window_size = window_size - 1` and builds a
`DirSlidingWindowCorpus` with `left_ctx_size = right_ctx_size =
self.window_size` (that corpus class lives in `vecto/corpus/corpus.py`,
absent from `src/`; per the spec's pipeline it yields the
`SlidingWindowIterator` samples).  `next_single_sample` maps the sample
through `vocab.get_id` and right-pads the context with `-1` while it is
shorter than `self.window_size * 2`. -/

/-- The `(center, context)` pair `next_single_sample` returns for one
sliding-window sample, given `vocab.get_id` and `self.window_size`:
ids of `current` and of the context tokens, the context right-padded with
`-1` up to `window_size * 2`. -/
def next_single_sample (get_id : α → Int) (window_size : Nat) (s : Sample α) :
    Int × List Int :=
  let context := s.context.map get_id
  (get_id s.current,
    context ++ List.replicate (window_size * 2 - context.length) (-1))

/-! ## The whole pipeline over fixed immutable inputs

Directory walk → line reading (file contents looked up by path) →
tokenization → sliding window. -/

/-- The full corpus pipeline over a fixed filesystem (`tree` rooted at
`root`, `contents` giving each path's raw lines), a fixed tokenizer and
fixed window sizes: the sample sequence a freshly constructed
`SlidingWindowIterator` over the chained stages produces. -/
def pipelineSamples (root : List Char) (tree : FSTree)
    (contents : List Char → List (List Char))
    (tokenizer : List Char → List (List (List Char)))
    (left_ctx_size right_ctx_size : Nat) : List (Sample (List Char)) :=
  slidingWindowGen
    (tokenizedSequenceSamples tokenizer
      (fileLineSamples ((walkTree root tree).map contents)))
    left_ctx_size right_ctx_size

/-! ## Helper lemmas -/

theorem pyClampIndex_ofNat (n i : Nat) (h : i ≤ n) :
    pyClampIndex n (i : Int) = i := by
  unfold pyClampIndex
  split
  · omega
  · omega

theorem pySlice_left_eq (S : List α) (L i : Nat) (hi : i ≤ S.length) :
    pySlice S ((i : Int) - L) i =
      (S.take i).drop (pyClampIndex S.length ((i : Int) - L)) := by
  rw [pySlice, pyClampIndex_ofNat _ _ hi, List.drop_take]

theorem pySlice_left_sublist (S : List α) (L i : Nat) (hi : i ≤ S.length) :
    (pySlice S ((i : Int) - L) i).Sublist (S.take i) := by
  rw [pySlice_left_eq S L i hi]
  exact List.drop_sublist _ _

theorem pySlice_right_eq (S : List α) (R i : Nat) (hi : i < S.length) :
    pySlice S ((i : Int) + 1) ((i : Int) + R + 1) =
      (S.drop (i + 1)).take (pyClampIndex S.length ((i : Int) + R + 1) - (i + 1)) := by
  have h1 : ((i : Int) + 1) = ((i + 1 : Nat) : Int) := by push_cast; ring
  rw [pySlice, h1, pyClampIndex_ofNat _ _ (by omega)]

theorem pySlice_right_sublist (S : List α) (R i : Nat) (hi : i < S.length) :
    (pySlice S ((i : Int) + 1) ((i : Int) + R + 1)).Sublist (S.drop (i + 1)) := by
  rw [pySlice_right_eq S R i hi]
  exact List.take_sublist _ _

theorem pySlice_left_length_le (S : List α) (L i : Nat) (hi : i ≤ S.length) :
    (pySlice S ((i : Int) - L) i).length ≤ L := by
  rw [pySlice_left_eq S L i hi]
  rcases le_or_lt L i with h | h
  · have : pyClampIndex S.length ((i : Int) - L) = i - L := by
      unfold pyClampIndex
      split
      · omega
      · omega
    rw [this]
    simp [List.length_drop, List.length_take]
    omega
  · calc ((S.take i).drop (pyClampIndex S.length ((i : Int) - L))).length
        ≤ (S.take i).length := List.Sublist.length_le (List.drop_sublist _ _)
      _ ≤ i := by simp [List.length_take]
      _ ≤ L := Nat.le_of_lt h

theorem pySlice_right_length_le (S : List α) (R i : Nat) (hi : i < S.length) :
    (pySlice S ((i : Int) + 1) ((i : Int) + R + 1)).length ≤ R := by
  rw [pySlice_right_eq S R i hi]
  have hc : pyClampIndex S.length ((i : Int) + R + 1) ≤ i + R + 1 := by
    unfold pyClampIndex
    split
    · omega
    · omega
  simp [List.length_take]
  omega

theorem slidingWindowSamples_length (L R : Nat) (S : List α) :
    (slidingWindowSamples L R S).length = S.length := by
  simp [slidingWindowSamples, iter_sliding_window, List.enum_length]

theorem slidingWindowSamples_getElem (L R : Nat) (S : List α) (i : Nat)
    (hi : i < S.length) (hi' : i < (slidingWindowSamples L R S).length) :
    (slidingWindowSamples L R S)[i] =
      ⟨S[i], pySlice S ((i : Int) - L) i ++
        pySlice S ((i : Int) + 1) ((i : Int) + R + 1)⟩ := by
  simp [slidingWindowSamples, iter_sliding_window, List.getElem_map, List.getElem_enum]

theorem slidingWindowSamples_context_sublist (L R : Nat) (S : List α) (i : Nat)
    (hi : i < S.length) (hi' : i < (slidingWindowSamples L R S).length) :
    ((slidingWindowSamples L R S)[i]).context.Sublist (S.take i ++ S.drop (i + 1)) := by
  rw [slidingWindowSamples_getElem L R S i hi hi']
  exact List.Sublist.append (pySlice_left_sublist S L i (Nat.le_of_lt hi))
    (pySlice_right_sublist S R i hi)

theorem slidingWindowSamples_context_length_le (L R : Nat) (S : List α)
    (smp : Sample α) (h : smp ∈ slidingWindowSamples L R S) :
    smp.context.length ≤ L + R := by
  rcases List.mem_iff_getElem.mp h with ⟨i, hi', hget⟩
  have hi : i < S.length := by
    have := slidingWindowSamples_length L R S (α := α)
    omega
  rw [← hget, slidingWindowSamples_getElem L R S i hi hi']
  simp only [List.length_append]
  exact Nat.add_le_add (pySlice_left_length_le S L i (Nat.le_of_lt hi))
    (pySlice_right_length_le S R i hi)

theorem slidingWindowIterator_drain (l : List (Sample α)) :
    SlidingWindowIterator.drain (⟨l⟩ : SlidingWindowIterator α) = (l, ⟨[]⟩) := by
  induction l with
  | nil => simp [SlidingWindowIterator.drain]
  | cons x xs ih => simp [SlidingWindowIterator.drain, ih]

/-! ### Directory-walk lemmas -/

theorem nameOk_not_mem (n : List Char) (h : nameOk n = true) : '/' ∉ n := by
  intro hm
  have := List.all_eq_true.mp h '/' hm
  simp at this

theorem nameOk_split {a b x y : List Char} (ha : nameOk a = true)
    (hb : nameOk b = true) (h : a ++ '/' :: x = b ++ '/' :: y) :
    a = b ∧ x = y := by
  induction a generalizing b with
  | nil =>
    cases b with
    | nil => simpa using h
    | cons d bs =>
      simp only [List.nil_append, List.cons_append, List.cons.injEq] at h
      exact absurd (h.1 ▸ List.mem_cons_self d bs) (nameOk_not_mem _ hb)
  | cons c as ih =>
    cases b with
    | nil =>
      simp only [List.cons_append, List.nil_append, List.cons.injEq] at h
      exact absurd (h.1 ▸ List.mem_cons_self c as) (nameOk_not_mem _ ha)
    | cons d bs =>
      simp only [List.cons_append, List.cons.injEq] at h
      have ha' : nameOk as = true := by
        simp only [nameOk, List.all_cons, Bool.and_eq_true] at ha
        exact ha.2
      have hb' : nameOk bs = true := by
        simp only [nameOk, List.all_cons, Bool.and_eq_true] at hb
        exact hb.2
      obtain ⟨h1, h2⟩ := ih ha' hb' h.2
      exact ⟨by rw [h.1, h1], h2⟩

mutual
theorem mem_walkTree {p root : List Char} {t : FSTree} (h : p ∈ walkTree root t) :
    ∃ s, p = root ++ '/' :: s := by
  match t with
  | .mk files subdirs =>
    rw [walkTree] at h
    rcases List.mem_append.mp h with h | h
    · rcases List.mem_map.mp h with ⟨f, _, rfl⟩
      exact ⟨f, rfl⟩
    · rcases mem_walkSubs h with ⟨n, s, _, rfl⟩
      exact ⟨n ++ '/' :: s, rfl⟩

theorem mem_walkSubs {p root : List Char} {subs : SubdirEntries}
    (h : p ∈ walkSubs root subs) :
    ∃ n s, n ∈ subNames subs ∧ p = root ++ '/' :: (n ++ '/' :: s) := by
  match subs with
  | .nil => simp [walkSubs] at h
  | .cons name tree rest =>
    rw [walkSubs] at h
    rcases List.mem_append.mp h with h | h
    · rcases mem_walkTree h with ⟨s, rfl⟩
      exact ⟨name, s, by simp [subNames], by simp [pathJoin]⟩
    · rcases mem_walkSubs h with ⟨n, s, hn, rfl⟩
      exact ⟨n, s, by simp [subNames, hn], rfl⟩
end

theorem subNames_nameOk {subs : SubdirEntries} {n : List Char}
    (hwf : wfSubs subs = true) (hn : n ∈ subNames subs) : nameOk n = true := by
  match subs with
  | .nil => simp [subNames] at hn
  | .cons name tree rest =>
    simp only [wfSubs, Bool.and_eq_true] at hwf
    rcases (List.mem_cons).mp (by simpa [subNames] using hn) with rfl | hn'
    · exact hwf.1.1.1
    · exact subNames_nameOk hwf.2 hn'

theorem subNames_files_nameOk {files : List (List Char)} {f : List Char}
    (hwf : files.all nameOk = true) (hf : f ∈ files) : nameOk f = true :=
  List.all_eq_true.mp hwf f hf

mutual
theorem walkTree_length (root : List Char) (t : FSTree) :
    (walkTree root t).length = countFiles t := by
  match t with
  | .mk files subdirs =>
    rw [walkTree, countFiles, List.length_append, List.length_map,
      walkSubs_length]

theorem walkSubs_length (root : List Char) (subs : SubdirEntries) :
    (walkSubs root subs).length = countFilesSubs subs := by
  match subs with
  | .nil => rfl
  | .cons name tree rest =>
    rw [walkSubs, countFilesSubs, List.length_append, walkTree_length,
      walkSubs_length]
end

mutual
theorem walkTree_nodup (root : List Char) (t : FSTree)
    (hwf : wfTree t = true) : (walkTree root t).Nodup := by
  match t with
  | .mk files subdirs =>
    rw [wfTree, Bool.and_eq_true, Bool.and_eq_true] at hwf
    obtain ⟨⟨hnames, hnodup⟩, hsubs⟩ := hwf
    rw [walkTree]
    refine List.Nodup.append ?_ (walkSubs_nodup root subdirs hsubs) ?_
    · refine List.Nodup.map ?_ (of_decide_eq_true hnodup)
      intro a b hab
      simp only [pathJoin] at hab
      exact (List.cons.inj (List.append_cancel_left hab)).2
    · rw [List.disjoint_left]
      intro p hp hps
      rcases List.mem_map.mp hp with ⟨f, hf, rfl⟩
      rcases mem_walkSubs hps with ⟨n, s, _, heq⟩
      have hfe : f = n ++ '/' :: s := by
        simp only [pathJoin] at heq
        exact (List.cons.inj (List.append_cancel_left heq)).2
      exact nameOk_not_mem f (subNames_files_nameOk hnames hf)
        (hfe ▸ List.mem_append_right n (List.mem_cons_self _ _))

theorem walkSubs_nodup (root : List Char) (subs : SubdirEntries)
    (hwf : wfSubs subs = true) : (walkSubs root subs).Nodup := by
  match subs with
  | .nil => exact List.nodup_nil
  | .cons name tree rest =>
    rw [wfSubs, Bool.and_eq_true, Bool.and_eq_true, Bool.and_eq_true] at hwf
    obtain ⟨⟨⟨hname, hfresh⟩, htree⟩, hrest⟩ := hwf
    rw [walkSubs]
    refine List.Nodup.append (walkTree_nodup _ tree htree)
      (walkSubs_nodup root rest hrest) ?_
    rw [List.disjoint_left]
    intro p hp hps
    rcases mem_walkTree hp with ⟨s, rfl⟩
    rcases mem_walkSubs hps with ⟨n, s', hn, heq⟩
    have h2 : root ++ '/' :: (name ++ '/' :: s) = root ++ '/' :: (n ++ '/' :: s') := by
      simpa only [pathJoin, List.append_assoc, List.cons_append] using heq
    have heq' : name ++ '/' :: s = n ++ '/' :: s' :=
      (List.cons.inj (List.append_cancel_left h2)).2
    obtain ⟨rfl, -⟩ := nameOk_split hname (subNames_nameOk hrest hn) heq'
    exact of_decide_eq_true hfresh hn
end

theorem isAbsolute_append (root q : List Char) (h : isAbsolute root = true) :
    isAbsolute (root ++ q) = true := by
  cases root with
  | nil => simp [isAbsolute] at h
  | cons c r => simpa [isAbsolute] using (by simpa [isAbsolute] using h : c = '/')

/-! ## Claim theorems -/

/-- C1: the code evaluated at `S = [0,1,2,3]`, `L = R = 2`, `i = 1`:
`iter_sliding_window` yields context `[2, 3]` there — the left slice
`seq[i - L : i] = seq[-1 : 1]` is empty because its negative start counts
from the end of the list — whereas the claimed formula
`S[max(0, i-L) : i] ++ S[i+1 : min(n, i+R+1)]` gives `[0, 2, 3]` of length
`min(i, L) + min(n-1-i, R) = 3`. -/
theorem slidingWindow_left_context_dropped :
    slidingWindowSamples 2 2 [0, 1, 2, 3] =
      [⟨0, [1, 2]⟩, ⟨1, [2, 3]⟩, ⟨2, [0, 1, 3]⟩, ⟨3, [1, 2]⟩]
  ∧ specContext [0, 1, 2, 3] 2 2 1 = [0, 2, 3]
  ∧ ([2, 3] : List Nat) ≠ specContext [0, 1, 2, 3] 2 2 1
  ∧ ([2, 3] : List Nat).length ≠ min 1 2 + min (4 - 1 - 1) 2 := by
  decide

/-- C2: for every upstream sequence `S` of length `n`, the sliding-window
iterator yields exactly `n` samples from `S`; sample `i`'s `current` is
`S[i]`; its context is a sublist of `S` with position `i` removed (so it
never contains the center element itself), and each produced sample comes
from windowing its own upstream sequence. -/
theorem slidingWindow_samples_spec {α : Type} (upstream : List (List α))
    (L R : Nat) (S : List α) (i : Nat) (hS : S ∈ upstream) (hi : i < S.length)
    (hi' : i < (slidingWindowSamples L R S).length) :
    (slidingWindowSamples L R S).length = S.length
  ∧ ((slidingWindowSamples L R S).get ⟨i, hi'⟩).current = S.get ⟨i, hi⟩
  ∧ ((slidingWindowSamples L R S).get ⟨i, hi'⟩).context.Sublist
      (S.take i ++ S.drop (i + 1))
  ∧ (slidingWindowSamples L R S).get ⟨i, hi'⟩ ∈ slidingWindowGen upstream L R := by
  refine ⟨slidingWindowSamples_length L R S, ?_, ?_, ?_⟩
  · show ((slidingWindowSamples L R S)[i]).current = S[i]
    rw [slidingWindowSamples_getElem L R S i hi hi']
  · exact slidingWindowSamples_context_sublist L R S i hi hi'
  · exact List.mem_flatMap.mpr ⟨S, hS, List.getElem_mem hi'⟩

/-- Witness for C2 at `upstream = [[0,1,2,3]]`, `L = R = 2`, `i = 1`. -/
theorem slidingWindow_samples_spec_witness :
    (slidingWindowSamples 2 2 [0, 1, 2, 3]).length = ([0, 1, 2, 3] : List Nat).length
  ∧ ((slidingWindowSamples 2 2 [0, 1, 2, 3]).get ⟨1, by decide⟩).current
      = ([0, 1, 2, 3] : List Nat).get ⟨1, by decide⟩
  ∧ ((slidingWindowSamples 2 2 [0, 1, 2, 3]).get ⟨1, by decide⟩).context.Sublist
      (([0, 1, 2, 3] : List Nat).take 1 ++ ([0, 1, 2, 3] : List Nat).drop 2)
  ∧ (slidingWindowSamples 2 2 [0, 1, 2, 3]).get ⟨1, by decide⟩
      ∈ slidingWindowGen [[0, 1, 2, 3]] 2 2 :=
  slidingWindow_samples_spec [[0, 1, 2, 3]] 2 2 [0, 1, 2, 3] 1
    (by decide) (by decide) (by decide)

/-- C3: the line iterator yields, per file, exactly one sample per line
that is non-empty after stripping — each equal to that line stripped of
leading/trailing whitespace — those samples appear in the overall output,
and no yielded sample is the empty string. -/
theorem fileLineIterator_spec (files : List (List (List Char)))
    (lines : List (List Char)) (s : List Char)
    (hl : lines ∈ files) (hs : s ∈ fileLineSamples files) :
    (fileSamples lines).length = lines.countP (fun l => !(pyStrip l).isEmpty)
  ∧ fileSamples lines = (lines.filter (fun l => !(pyStrip l).isEmpty)).map pyStrip
  ∧ (fileSamples lines).Sublist (fileLineSamples files)
  ∧ s ≠ [] := by
  refine ⟨?_, ?_, ?_, ?_⟩
  · rw [fileSamples, ← List.countP_eq_length_filter, List.countP_map]
    rfl
  · exact List.filter_map pyStrip lines
  · rw [fileLineSamples, List.flatMap_def]
    exact List.sublist_flatten_of_mem (List.mem_map_of_mem fileSamples hl)
  · rcases List.mem_flatMap.mp hs with ⟨lines', _, hs'⟩
    have := (List.mem_filter.mp hs').2
    simpa using fun he => by simp [he] at this

/-- Witness for C3 on one file with raw lines `" a"`, `" "`, `"b"`. -/
theorem fileLineIterator_spec_witness :
    (fileSamples [[' ', 'a'], [' '], ['b']]).length
      = ([[' ', 'a'], [' '], ['b']] : List (List Char)).countP
          (fun l => !(pyStrip l).isEmpty)
  ∧ fileSamples [[' ', 'a'], [' '], ['b']]
      = (([[' ', 'a'], [' '], ['b']] : List (List Char)).filter
          (fun l => !(pyStrip l).isEmpty)).map pyStrip
  ∧ (fileSamples [[' ', 'a'], [' '], ['b']]).Sublist
      (fileLineSamples [[[' ', 'a'], [' '], ['b']]])
  ∧ (['a'] : List Char) ≠ [] :=
  fileLineIterator_spec [[[' ', 'a'], [' '], ['b']]] [[' ', 'a'], [' '], ['b']]
    ['a'] (by decide) (by decide)

/-- C4 (amended): over a well-formed directory tree the walk yields exactly
`countFiles` paths, pairwise distinct (so each uniquely identifies one
file, whatever the traversal order), an empty directory yields the empty
sequence, and every yielded path is absolute whenever the root path is
absolute (the code joins names onto the given root; it does not make a
relative root absolute). -/
theorem dirIterator_spec_amended (root : List Char) (t : FSTree) (p : List Char)
    (hwf : wfTree t = true) (hp : p ∈ walkTree root t) :
    (walkTree root t).length = countFiles t
  ∧ (walkTree root t).Nodup
  ∧ (isAbsolute root = true → isAbsolute p = true)
  ∧ walkTree root (FSTree.mk [] SubdirEntries.nil) = [] := by
  refine ⟨walkTree_length root t, walkTree_nodup root t hwf, ?_, ?_⟩
  · intro habs
    rcases mem_walkTree hp with ⟨s, rfl⟩
    exact isAbsolute_append root _ habs
  · simp [walkTree, walkSubs]

/-- Witness for C4 at root `"/d"` over a tree with files `a` and `s/b`. -/
theorem dirIterator_spec_amended_witness :
    (walkTree ['/', 'd']
        (FSTree.mk [['a']]
          (SubdirEntries.cons ['s'] (FSTree.mk [['b']] SubdirEntries.nil)
            SubdirEntries.nil))).length
      = countFiles
          (FSTree.mk [['a']]
            (SubdirEntries.cons ['s'] (FSTree.mk [['b']] SubdirEntries.nil)
              SubdirEntries.nil))
  ∧ (walkTree ['/', 'd']
        (FSTree.mk [['a']]
          (SubdirEntries.cons ['s'] (FSTree.mk [['b']] SubdirEntries.nil)
            SubdirEntries.nil))).Nodup
  ∧ isAbsolute ['/', 'd', '/', 'a'] = true
  ∧ walkTree ['/', 'd'] (FSTree.mk [] SubdirEntries.nil) = [] :=
  have h := dirIterator_spec_amended ['/', 'd']
    (FSTree.mk [['a']]
      (SubdirEntries.cons ['s'] (FSTree.mk [['b']] SubdirEntries.nil)
        SubdirEntries.nil))
    ['/', 'd', '/', 'a'] (by decide) (by decide)
  ⟨h.1, h.2.1, h.2.2.1 (by decide), h.2.2.2⟩

/-- C4 counterexample: with the relative root `"d"` and one file `f`, the
walk yields the single path `"d/f"`, which is not absolute — refuting the
claim that every yielded path is absolute for every root directory path. -/
theorem dirIterator_not_absolute_counterexample :
    walkTree ['d'] (FSTree.mk [['f']] SubdirEntries.nil) = [['d', '/', 'f']]
  ∧ isAbsolute ['d', '/', 'f'] = false := by
  decide

/-- C5: constructing a `SlidingWindowIterator` checks
`isinstance(next(iter(base_corpus)), Sequence)` first: if the upstream's
first element is not an indexable ordered sequence the construction fails
with the assertion error before any sample is produced, and if it is such
a sequence the check succeeds. -/
theorem slidingWindow_construction_assert {α : Type} (first : PyElem α)
    (rest : List (PyElem α)) :
    slidingWindowInit (first :: rest) =
      (if isSequence first then Except.ok ()
       else Except.error InitError.assertionError) := by
  rfl

/-- C6: a `SlidingWindowIterator` instance is single-use: `__iter__`
returns the same instance; once draining it has signalled exhaustion,
every further `__next__` signals exhaustion again, and iterating the same
instance a second time yields no samples instead of restarting. -/
theorem slidingWindow_single_use {α : Type} (upstream : List (List α))
    (L R : Nat) :
    SlidingWindowIterator.iter (SlidingWindowIterator.new upstream L R)
      = SlidingWindowIterator.new upstream L R
  ∧ SlidingWindowIterator.next ((SlidingWindowIterator.new upstream L R).drain).2
      = (none, ((SlidingWindowIterator.new upstream L R).drain).2)
  ∧ (SlidingWindowIterator.iter
        ((SlidingWindowIterator.new upstream L R).drain).2).drain
      = ([], ((SlidingWindowIterator.new upstream L R).drain).2) := by
  have h : (SlidingWindowIterator.new upstream L R).drain
      = (slidingWindowGen upstream L R, ⟨[]⟩) :=
    slidingWindowIterator_drain (slidingWindowGen upstream L R)
  refine ⟨rfl, ?_, ?_⟩
  · rw [h]
    rfl
  · rw [h, SlidingWindowIterator.iter, slidingWindowIterator_drain]

/-- C7: the token iterator is the flattening homomorphism: its output on a
list of sentences is their concatenation, it maps list concatenation to
stream concatenation, and a single sentence to its own tokens. -/
theorem tokenIterator_flattens {α : Type} (seqs xs ys : List (List α))
    (s : List α) :
    tokenSamples seqs = seqs.flatten
  ∧ tokenSamples seqs = seqs.foldr (fun a b => a ++ b) []
  ∧ tokenSamples (xs ++ ys) = tokenSamples xs ++ tokenSamples ys
  ∧ tokenSamples [s] = s
  ∧ tokenSamples ([] : List (List α)) = [] := by
  refine ⟨?_, ?_, ?_, ?_, ?_⟩
  · simp [tokenSamples, List.flatMap_def]
  · induction seqs with
    | nil => rfl
    | cons x xs ih => simp [tokenSamples, List.flatMap_cons] at ih ⊢; simp [ih]
  · simp [tokenSamples]
  · simp [tokenSamples]
  · rfl

/-- C8: the pipeline is deterministic over fixed immutable inputs: two
iterator instances constructed from the same filesystem, contents,
tokenizer and window sizes and fully consumed produce identical sample
sequences — both equal to the pipeline's sample list. -/
theorem pipeline_deterministic (root : List Char) (t : FSTree)
    (contents : List Char → List (List Char))
    (tokenizer : List Char → List (List (List Char))) (L R : Nat) :
    (SlidingWindowIterator.mk (pipelineSamples root t contents tokenizer L R)).drain.1
      = (SlidingWindowIterator.mk (pipelineSamples root t contents tokenizer L R)).drain.1
  ∧ (SlidingWindowIterator.mk (pipelineSamples root t contents tokenizer L R)).drain.1
      = pipelineSamples root t contents tokenizer L R := by
  refine ⟨rfl, ?_⟩
  rw [slidingWindowIterator_drain]

/-- C9: `next(iter(base_corpus))` in `SlidingWindowIterator.__init__`
consumes one upstream element: over a single-pass upstream the first token
sequence contributes no samples (the constructed iterator generates
exactly the samples of the remaining sequences, whereas windowing the full
upstream would start with the first sequence's samples), and an empty
upstream makes construction fail with the upstream's `StopIteration`, not
with the assertion error. -/
theorem slidingWindow_init_consumes_first {α : Type} (first : List α)
    (rest : List (List α)) (L R : Nat) :
    slidingWindowInitSinglePass (first :: rest) L R
      = Except.ok (slidingWindowGen rest L R)
  ∧ slidingWindowGen (first :: rest) L R
      = slidingWindowSamples L R first ++ slidingWindowGen rest L R
  ∧ slidingWindowInitSinglePass ([] : List (List α)) L R
      = Except.error InitError.stopIteration
  ∧ (Except.error InitError.stopIteration
      : Except InitError (List (Sample α)))
      ≠ Except.error InitError.assertionError := by
  refine ⟨rfl, ?_, rfl, by simp⟩
  simp [slidingWindowGen]

/-- C10: `next_single_sample` right-pads the context with `-1` up to
`self.window_size * 2`, so every `(center, context)` pair built from a
sliding-window sample (windowed with `left = right = window_size`) has
context of width exactly `window_size * 2`. -/
theorem next_single_sample_width {α : Type} (get_id : α → Int)
    (window_size : Nat) (S : List α) (smp : Sample α)
    (h : smp ∈ slidingWindowSamples window_size window_size S) :
    ((next_single_sample get_id window_size smp).2).length = window_size * 2 := by
  have hle := slidingWindowSamples_context_length_le window_size window_size S smp h
  simp only [next_single_sample, List.length_append, List.length_replicate,
    List.length_map]
  omega

/-- Witness for C10 at `window_size = 2` on the sample `(1, [2, 3])` of
`[0,1,2,3]`. -/
theorem next_single_sample_width_witness :
    ((next_single_sample (fun n : Nat => (n : Int)) 2
        (⟨1, [2, 3]⟩ : Sample Nat)).2).length = 2 * 2 :=
  next_single_sample_width (fun n : Nat => (n : Int)) 2 [0, 1, 2, 3]
    ⟨1, [2, 3]⟩ (by decide)

end Vecto
